import Mathlib

/-!
Verification development for the DPoS consensus state machine core
(`plugin/consensus/dpos/consensus_state.go`).

The Go code is shallowly embedded: byte slices become `List Nat`, Go `int64`
becomes `Int`, nil-able pointers become `Option`, and the mutable
`ConsensusState` receiver becomes explicit state passing.  Go map iteration
order is unspecified, so every function of the source that ranges over a map
is parametrised by an explicit iteration order (a list of key/value pairs, or
a permutation of the key set), and theorems either hold for all orders or
exhibit orders on which results differ.
-/

set_option maxHeartbeats 1000000

namespace Dpos

/-- Byte strings (Go `[]byte` and Go `string` keys derived from them). -/
abbrev Bytes := List Nat

/-- VoteItem message (`dpostype.VoteItem`): the content a voter endorses. -/
structure VoteItem where
  voteId : Bytes
  votedNodeAddress : Bytes
  periodStart : Int
  periodStop : Int
  cycleStart : Int
  cycleStop : Int
deriving DecidableEq

/-- DPosVote message (`dpostype.DPosVote`): a signed envelope around a VoteItem. -/
structure DPosVote where
  voteItem : VoteItem
  voterNodeAddress : Bytes
  voteTimestamp : Int
  signature : Bytes
deriving DecidableEq

/-- DPosNotify message (`dpostype.DPosNotify`). -/
structure DPosNotify where
  vote : VoteItem
  heightStop : Int
  notifyNodeAddress : Bytes
  notifyTimestamp : Int
  signature : Bytes
deriving DecidableEq

/-- DposCBInfo (`dty.DposCBInfo`): cycle-boundary record.  `stopHash`,
`pubkey` and `signature` are hex strings, as in the Go type. -/
structure DposCBInfo where
  cycle : Int
  stopHeight : Int
  stopHash : String
  pubkey : String
  signature : String
deriving DecidableEq

/-- Tally outcome constant `continueToVote = 0`. -/
def continueToVote : Nat := 0

/-- Tally outcome constant `voteSuccess = 1`. -/
def voteSuccess : Nat := 1

/-- Tally outcome constant `voteFail = 2`. -/
def voteFail : Nat := 2

/-- The mutable fields of `ConsensusState` that the claims are about.
`cycleBoundaryMap` is the Go map `map[int64]*dty.DposCBInfo` represented as an
association list whose list order stands for one possible iteration order.
`privValidatorAddress` models `cs.privValidator.GetAddress()`. -/
structure ConsensusState where
  dposState : Nat
  dposVotes : List DPosVote
  currentVote : Option VoteItem
  lastVote : Option VoteItem
  myVote : Option DPosVote
  lastMyVote : Option DPosVote
  notify : Option DPosNotify
  lastNotify : Option DPosNotify
  cachedVotes : List DPosVote
  cachedNotify : Option DPosNotify
  cycleBoundaryMap : List (Int × DposCBInfo)
  privValidatorAddress : Bytes
deriving DecidableEq

/-- State produced by `NewConsensusState`: every pool and slot empty. -/
def initialConsensusState : ConsensusState :=
  { dposState := 0
    dposVotes := []
    currentVote := none
    lastVote := none
    myVote := none
    lastMyVote := none
    notify := none
    lastNotify := none
    cachedVotes := []
    cachedNotify := none
    cycleBoundaryMap := []
    privValidatorAddress := [] }

/-- IsProposer: true iff an agreed vote exists and its `votedNodeAddress`
is byte-equal to the node's own validator address. -/
def IsProposer (cs : ConsensusState) : Bool :=
  match cs.currentVote with
  | some cv => decide (cv.votedNodeAddress = cs.privValidatorAddress)
  | none => false

/-- SaveVote: adopt `currentVote` into `lastVote` when `lastVote` is empty, or
when `currentVote` is non-empty and its `voteId` differs from `lastVote`'s. -/
def SaveVote (cs : ConsensusState) : ConsensusState :=
  match cs.lastVote with
  | none => { cs with lastVote := cs.currentVote }
  | some lv =>
    match cs.currentVote with
    | some cv => if cv.voteId = lv.voteId then cs else { cs with lastVote := some cv }
    | none => cs

/-- SetCurrentVote: overwrite the agreed vote slot. -/
def SetCurrentVote (cs : ConsensusState) (v : Option VoteItem) : ConsensusState :=
  { cs with currentVote := v }

/-- SaveMyVote: like SaveVote but for the node's own vote, discriminated by
signature. -/
def SaveMyVote (cs : ConsensusState) : ConsensusState :=
  match cs.lastMyVote with
  | none => { cs with lastMyVote := cs.myVote }
  | some lmv =>
    match cs.myVote with
    | some mv => if mv.signature = lmv.signature then cs else { cs with lastMyVote := some mv }
    | none => cs

/-- SetMyVote: overwrite the own-vote slot. -/
def SetMyVote (cs : ConsensusState) (v : Option DPosVote) : ConsensusState :=
  { cs with myVote := v }

/-- SaveNotify: like SaveVote but for the notify slot, discriminated by
signature. -/
def SaveNotify (cs : ConsensusState) : ConsensusState :=
  match cs.lastNotify with
  | none => { cs with lastNotify := cs.notify }
  | some ln =>
    match cs.notify with
    | some n => if n.signature = ln.signature then cs else { cs with lastNotify := some n }
    | none => cs

/-- SetNotify: when the stored notify exists and its signature differs from
the incoming one, push it into `lastNotify`; then store the incoming notify. -/
def SetNotify (cs : ConsensusState) (n : DPosNotify) : ConsensusState :=
  match cs.notify with
  | some cur =>
    if cur.signature = n.signature then { cs with notify := some n }
    else { cs with lastNotify := some cur, notify := some n }
  | none => { cs with notify := some n }

/-- CacheNotify: store a notify for a future cycle. -/
def CacheNotify (cs : ConsensusState) (n : DPosNotify) : ConsensusState :=
  { cs with cachedNotify := some n }

/-- ClearCachedNotify. -/
def ClearCachedNotify (cs : ConsensusState) : ConsensusState :=
  { cs with cachedNotify := none }

/-- The shared admission scan of AddVotes and CacheVotes.  The Go loop walks
the pool and breaks at the first entry whose signature equals the incoming
vote's signature (discard) or, failing that test on that entry, whose voter
address equals the incoming vote's (replace in place when the incoming
timestamp is strictly larger, else discard); when no entry matches either,
the vote is appended.  The recursion below performs exactly that scan. -/
def poolAdmit (v : DPosVote) : List DPosVote → List DPosVote
  | [] => [v]
  | p :: rest =>
    if p.signature = v.signature then p :: rest
    else if p.voterNodeAddress = v.voterNodeAddress then
      if p.voteTimestamp < v.voteTimestamp then v :: rest else p :: rest
    else p :: poolAdmit v rest

/-- AddVotes: staleness guard against `lastVote.periodStop`, then the shared
admission scan on `dposVotes`. -/
def AddVotes (cs : ConsensusState) (v : DPosVote) : ConsensusState :=
  match cs.lastVote with
  | some lv =>
    if v.voteItem.periodStart < lv.periodStop then cs
    else { cs with dposVotes := poolAdmit v cs.dposVotes }
  | none => { cs with dposVotes := poolAdmit v cs.dposVotes }

/-- CacheVotes: the shared admission scan on `cachedVotes` (no staleness
guard). -/
def CacheVotes (cs : ConsensusState) (v : DPosVote) : ConsensusState :=
  { cs with cachedVotes := poolAdmit v cs.cachedVotes }

/-- The list of `voteId`s appearing in a pool, in pool order. -/
def voteIds (pool : List DPosVote) : List Bytes :=
  pool.map (fun v => v.voteItem.voteId)

/-- Number of pool entries endorsing `voteId = k` (the value `voteStat[k]`
built by the counting loop of CheckVotes). -/
def countVotes (pool : List DPosVote) (k : Bytes) : Nat :=
  (pool.filter (fun v => decide (v.voteItem.voteId = k))).length

/-- The max-selection loop of CheckVotes: start from `key = "", value = 0`
and keep the first strictly larger pair. -/
def maxLoop (acc : Bytes × Nat) : List (Bytes × Nat) → Bytes × Nat
  | [] => acc
  | b :: rest => maxLoop (if acc.2 < b.2 then b else acc) rest

/-- The `voteStat` map paired with one iteration order of its keys. -/
def voteStatList (pool : List DPosVote) (order : List Bytes) : List (Bytes × Nat) :=
  order.map (fun k => (k, countVotes pool k))

/-- The super-majority threshold `int(dposDelegateNum * 2 / 3)`. -/
def major32 (n : Nat) : Nat := n * 2 / 3

/-- CheckVotes, parametrised by the delegate count `n` (`dposDelegateNum`, a
package-level configuration variable outside this file) and by the iteration
order of the `voteStat` map. -/
def checkVotesWithOrder (n : Nat) (pool : List DPosVote) (order : List Bytes) :
    Nat × Option VoteItem :=
  if pool.length < major32 n then (continueToVote, none)
  else
    let best := maxLoop ([], 0) (voteStatList pool order)
    if major32 n ≤ best.2 then
      match pool.find? (fun v => decide (v.voteItem.voteId = best.1)) with
      | some w => (voteSuccess, some w.voteItem)
      | none => (continueToVote, none)
    else if (best.2 : Int) + ((n : Int) - (pool.length : Int)) < (major32 n : Int) then
      (voteFail, none)
    else (continueToVote, none)

/-- CheckVotes run at one canonical iteration order (first-occurrence order
of the distinct vote ids). -/
def CheckVotes (n : Nat) (pool : List DPosVote) : Nat × Option VoteItem :=
  checkVotesWithOrder n pool (voteIds pool).dedup

/-- The maximum multiset count of a `voteId` over the pool. -/
def cstar (pool : List DPosVote) : Nat :=
  (pool.map (fun v => countVotes pool v.voteItem.voteId)).foldr max 0

/-- ClearVotes: reset the vote pool, the agreed vote and the own vote. -/
def ClearVotes (cs : ConsensusState) : ConsensusState :=
  { cs with dposVotes := [], currentVote := none, myVote := none }

/-- ClearCachedVotes. -/
def ClearCachedVotes (cs : ConsensusState) : ConsensusState :=
  { cs with cachedVotes := [] }

/-- SetState (the dpos state object is abstracted to a numeric tag). -/
def SetState (cs : ConsensusState) (s : Nat) : ConsensusState :=
  { cs with dposState := s }

/-- Keys of the cycle-boundary cache, in iteration order. -/
def cbKeys (m : List (Int × DposCBInfo)) : List Int :=
  m.map (fun kv => kv.1)

/-- Go map lookup `m[c]` on the association-list representation. -/
def cbLookup (m : List (Int × DposCBInfo)) (c : Int) : Option DposCBInfo :=
  (m.find? (fun kv => decide (kv.1 = c))).map (fun kv => kv.2)

/-- Go map assignment `m[c] = i` when `c` is already a key: replace in place. -/
def assocSet (m : List (Int × DposCBInfo)) (c : Int) (i : DposCBInfo) :
    List (Int × DposCBInfo) :=
  m.map (fun kv => if kv.1 = c then (c, i) else kv)

/-- Go `delete(m, c)`. -/
def assocErase (m : List (Int × DposCBInfo)) (c : Int) : List (Int × DposCBInfo) :=
  m.filter (fun kv => decide (kv.1 ≠ c))

/-- The range loop of UpdateCBInfo: returns `none` when some key equals the
incoming cycle (the overwrite-and-return path), else `some oldest` where
`oldest` is accumulated with the Go code's `0`-as-unset sentinel. -/
def cbUpdateLoop (c : Int) (oldest : Int) : List (Int × DposCBInfo) → Option Int
  | [] => some oldest
  | kv :: rest =>
    if kv.1 = c then none
    else cbUpdateLoop c (if oldest = 0 then kv.1 else if kv.1 < oldest then kv.1 else oldest) rest

/-- UpdateCBInfo on the cycle-boundary cache: empty-insert, overwrite,
insert under capacity, or evict the `oldest` computed by the range loop. -/
def UpdateCBInfo (m : List (Int × DposCBInfo)) (info : DposCBInfo) :
    List (Int × DposCBInfo) :=
  if m.length = 0 then [(info.cycle, info)]
  else
    match cbUpdateLoop info.cycle 0 m with
    | none => assocSet m info.cycle info
    | some oldest =>
      (if 5 ≤ m.length then assocErase m oldest else m) ++ [(info.cycle, info)]

/-- GetCBInfoByCircle: plain lookup. -/
def GetCBInfoByCircle (m : List (Int × DposCBInfo)) (c : Int) : Option DposCBInfo :=
  cbLookup m c

/-- The state-mutating operations of `ConsensusState` in this file, as a
closed syntax so that invariants can be stated over every operation. -/
inductive Op where
  | saveVote
  | setCurrentVote (v : Option VoteItem)
  | saveMyVote
  | setMyVote (v : Option DPosVote)
  | saveNotify
  | setNotify (n : DPosNotify)
  | cacheNotify (n : DPosNotify)
  | clearCachedNotify
  | addVotes (v : DPosVote)
  | cacheVotes (v : DPosVote)
  | clearVotes
  | clearCachedVotes
  | setState (s : Nat)
  | updateCB (i : DposCBInfo)

/-- Dispatch an operation to its method. -/
def applyOp (cs : ConsensusState) : Op → ConsensusState
  | Op.saveVote => SaveVote cs
  | Op.setCurrentVote v => SetCurrentVote cs v
  | Op.saveMyVote => SaveMyVote cs
  | Op.setMyVote v => SetMyVote cs v
  | Op.saveNotify => SaveNotify cs
  | Op.setNotify n => SetNotify cs n
  | Op.cacheNotify n => CacheNotify cs n
  | Op.clearCachedNotify => ClearCachedNotify cs
  | Op.addVotes v => AddVotes cs v
  | Op.cacheVotes v => CacheVotes cs v
  | Op.clearVotes => ClearVotes cs
  | Op.clearCachedVotes => ClearCachedVotes cs
  | Op.setState s => SetState cs s
  | Op.updateCB i => { cs with cycleBoundaryMap := UpdateCBInfo cs.cycleBoundaryMap i }

/-- Outcome of one handler invocation inside the receive loop: it either
returns normally or panics. -/
inductive HandlerOutcome where
  | normal
  | panics
deriving DecidableEq

/-- receiveRoutine: the deferred recover is installed at function scope,
outside the `for` loop, so the first handler panic unwinds the loop, the
recover logs the CONSENSUS FAILURE diagnostic, and the function returns.
The result is the number of events handled and whether the CONSENSUS
FAILURE diagnostic was logged. -/
def receiveRoutine : List HandlerOutcome → Nat × Bool
  | [] => (0, false)
  | HandlerOutcome.normal :: rest =>
    let r := receiveRoutine rest
    (r.1 + 1, r.2)
  | HandlerOutcome.panics :: _ => (1, true)

/-- Hex digit decoding, as in Go `encoding/hex` (both cases accepted). -/
def hexDigit (c : Char) : Option Nat :=
  if '0' ≤ c ∧ c ≤ '9' then some (c.toNat - 48)
  else if 'a' ≤ c ∧ c ≤ 'f' then some (c.toNat - 87)
  else if 'A' ≤ c ∧ c ≤ 'F' then some (c.toNat - 55)
  else none

/-- Hex string decoding on the character list: fails on odd length or on a
non-hex character, as Go `hex.DecodeString` does. -/
def hexDecodeList : List Char → Option Bytes
  | [] => some []
  | [_] => none
  | a :: b :: rest =>
    match hexDigit a, hexDigit b, hexDecodeList rest with
    | some hi, some lo, some r => some ((hi * 16 + lo) :: r)
    | _, _, _ => none

/-- Go `hex.DecodeString`. -/
def hexDecode (s : String) : Option Bytes :=
  hexDecodeList s.data

/-- Lower-case hex digit character. -/
def hexChar (n : Nat) : Char :=
  if n < 10 then Char.ofNat (48 + n) else Char.ofNat (87 + n)

/-- Hex encoding of a byte string (used to build concrete test inputs). -/
def hexEncode (bs : Bytes) : String :=
  String.mk (bs.foldr (fun b acc => hexChar (b / 16) :: hexChar (b % 16) :: acc) [])

/-- Base-256 little-endian digits with structural fuel. -/
def natBytesAux : Nat → Nat → Bytes
  | 0, _ => []
  | fuel + 1, n => if n = 0 then [] else (n % 256) :: natBytesAux fuel (n / 256)

/-- Base-256 little-endian digits of a natural number. -/
def natBytes (n : Nat) : Bytes :=
  natBytesAux n n

/-- Length-prefixed byte encoding of a natural number. -/
def encodeNat (n : Nat) : Bytes :=
  (natBytes n).length :: natBytes n

/-- Sign-and-magnitude byte encoding of an integer. -/
def encodeInt (i : Int) : Bytes :=
  (if i < 0 then 1 else 0) :: encodeNat i.natAbs

/-- Length-prefixed byte encoding of a string. -/
def encodeString (s : String) : Bytes :=
  s.data.length :: s.data.map Char.toNat

/-- Modelled from the spec: the canonical payload of cycle-boundary info is
"the deterministic serialization of (cycle, stop_height, stop_hash, pubkey)".
The Go code produces it with `json.Marshal(dty.CanonicalOnceCBInfo{...})`;
the `dty` type and the JSON encoder are outside this repository's sources, so
the serialization is modelled as a fixed deterministic field-by-field byte
encoding of exactly those four fields (the signature field is not part of
the payload). -/
def cbCanonicalBytes (info : DposCBInfo) : Bytes :=
  encodeInt info.cycle ++ encodeInt info.stopHeight ++
    encodeString info.stopHash ++ encodeString info.pubkey

/-- Modelled from the spec: the verifier capability consumed by the core
(`dpostype.ConsensusCrypto`, outside this repository's sources) — key and
signature deserialization plus `VerifyBytes`. -/
structure CryptoScheme where
  pubKeyFromBytes : Bytes → Option Bytes
  signatureFromBytes : Bytes → Option Bytes
  verifyBytes : Bytes → Bytes → Bytes → Bool

/-- VerifyCBInfo: hex-decode the in-band pubkey and signature, deserialize
both, serialize the canonical payload, and verify.  Any failure on the way
returns false.  The `ConsensusState` receiver is carried to make the
validator-set independence of the result statable. -/
def VerifyCBInfo (_cs : ConsensusState) (C : CryptoScheme) (info : DposCBInfo) : Bool :=
  match hexDecode info.pubkey with
  | none => false
  | some bpk =>
    match C.pubKeyFromBytes bpk with
    | none => false
    | some pk =>
      match hexDecode info.signature with
      | none => false
      | some bsig =>
        match C.signatureFromBytes bsig with
        | none => false
        | some sig => C.verifyBytes pk (cbCanonicalBytes info) sig

/-- Vote constructor for concrete test data: single-byte voter address,
vote id and signature. -/
def mkVote (voter : Nat) (id : Nat) (ts : Int) (sig : Nat) : DPosVote :=
  { voteItem :=
      { voteId := [id]
        votedNodeAddress := [voter]
        periodStart := 0
        periodStop := 0
        cycleStart := 0
        cycleStop := 0 }
    voterNodeAddress := [voter]
    voteTimestamp := ts
    signature := [sig] }

/-- A pool of 13 votes from distinct voters all endorsing vote id 7. -/
def pool13 : List DPosVote := (List.range 13).map (fun i => mkVote i 7 0 i)

/-- A pool of 14 votes from distinct voters all endorsing vote id 7. -/
def pool14 : List DPosVote := (List.range 14).map (fun i => mkVote i 7 0 i)

/-- A pool of 21 votes split 8/7/6 across vote ids 1, 2 and 3. -/
def pool21 : List DPosVote :=
  ((List.range 8).map (fun i => mkVote i 1 0 i)) ++
    ((List.range 7).map (fun i => mkVote (8 + i) 2 0 (8 + i))) ++
    ((List.range 6).map (fun i => mkVote (15 + i) 3 0 (15 + i)))

/-- Vote with address 1 and signature 9 (concrete test data). -/
def voteA : DPosVote := mkVote 1 100 10 9

/-- Vote with address 2 and signature 8 (concrete test data). -/
def voteB : DPosVote := mkVote 2 101 10 8

/-- Vote carrying voteA's address but voteB's signature, with a larger
timestamp (concrete test data). -/
def voteDup : DPosVote := mkVote 1 102 100 8

/-- A two-vote pool whose two entries endorse different vote ids. -/
def poolTie : List DPosVote := [mkVote 0 0 0 0, mkVote 1 1 0 1]

/-- Vote (V1, ts = 100, vote id X = 88). -/
def voteU1 : DPosVote := mkVote 1 88 100 50

/-- Vote (V1, ts = 101, vote id Y = 89). -/
def voteU2 : DPosVote := mkVote 1 89 101 51

/-- A concrete DPosNotify value for witnesses. -/
def sampleNotify : DPosNotify :=
  { vote := (mkVote 3 5 0 0).voteItem
    heightStop := 0
    notifyNodeAddress := [3]
    notifyTimestamp := 0
    signature := [7] }

/-- A concrete state whose three `last` slots are populated and whose
current vote differs from the last one. -/
def sampleCS : ConsensusState :=
  { initialConsensusState with
    lastVote := some (mkVote 3 5 0 0).voteItem
    lastMyVote := some (mkVote 3 5 0 1)
    lastNotify := some sampleNotify
    currentVote := some (mkVote 4 6 0 2).voteItem }

/-- Cycle-boundary record for cycle `c` (concrete test data). -/
def cbi (c : Int) : DposCBInfo :=
  { cycle := c, stopHeight := 0, stopHash := "", pubkey := "", signature := "" }

/-- A full cache whose smallest cycle key is 0. -/
def cbMapZero : List (Int × DposCBInfo) :=
  [(0, cbi 0), (4, cbi 4), (5, cbi 5), (6, cbi 6), (7, cbi 7)]

/-- A full cache holding cycles 3, 4, 5, 6, 7. -/
def cbMapFull : List (Int × DposCBInfo) :=
  [(3, cbi 3), (4, cbi 4), (5, cbi 5), (6, cbi 6), (7, cbi 7)]

/-- Modelled from the spec: a concrete instantiation of the verifier
capability for closed test runs — keys and signatures deserialize as raw
bytes, and a signature verifies exactly the message it was built from
(message bytes followed by the public key bytes). -/
def toyScheme : CryptoScheme :=
  { pubKeyFromBytes := fun b => some b
    signatureFromBytes := fun b => some b
    verifyBytes := fun pk m s => decide (s = m ++ pk) }

/-- Cycle-boundary info for the C6 example before signing. -/
def goodInfoBase : DposCBInfo :=
  { cycle := 7, stopHeight := 1000, stopHash := "H", pubkey := "ab", signature := "" }

/-- The same info carrying a signature built under the in-band public key
(hex "ab", bytes [171]) over the canonical payload. -/
def goodInfo : DposCBInfo :=
  { goodInfoBase with signature := hexEncode (cbCanonicalBytes goodInfoBase ++ [171]) }

/-- goodInfo with one byte of the stop hash changed. -/
def badInfo : DposCBInfo := { goodInfo with stopHash := "I" }

-- THEOREMS

theorem le_foldr_max (l : List Nat) : ∀ x ∈ l, x ≤ l.foldr max 0 := by
  induction l with
  | nil => intro x hx; cases hx
  | cons a t ih =>
    intro x hx
    rcases List.mem_cons.mp hx with h | h
    · subst h; exact le_max_left _ _
    · exact le_trans (ih x h) (le_max_right _ _)

theorem foldr_max_eq_zero_or_mem (l : List Nat) :
    l.foldr max 0 = 0 ∨ l.foldr max 0 ∈ l := by
  induction l with
  | nil => left; rfl
  | cons a t ih =>
    rcases ih with h | h
    · right
      simp only [List.foldr_cons, h, Nat.max_zero]
      exact List.mem_cons_self _ _
    · rcases max_choice a (t.foldr max 0) with hm | hm

      · right; simp only [List.foldr_cons, hm]; exact List.mem_cons_self _ _
      · right; simp only [List.foldr_cons, hm]; exact List.mem_cons_of_mem _ h

theorem le_cstar_of_mem (pool : List DPosVote) (v : DPosVote) (hv : v ∈ pool) :
    countVotes pool v.voteItem.voteId ≤ cstar pool :=
  le_foldr_max _ _ (List.mem_map_of_mem _ hv)

theorem cstar_eq_zero_or_mem (pool : List DPosVote) :
    cstar pool = 0 ∨ ∃ v ∈ pool, cstar pool = countVotes pool v.voteItem.voteId := by
  rcases foldr_max_eq_zero_or_mem (pool.map (fun v => countVotes pool v.voteItem.voteId)) with h | h
  · left; exact h
  · right
    obtain ⟨v, hv, hev⟩ := List.mem_map.mp h
    exact ⟨v, hv, hev.symm⟩

theorem one_le_cstar (pool : List DPosVote) (h : pool ≠ []) : 1 ≤ cstar pool := by
  obtain ⟨v, t, rfl⟩ := List.exists_cons_of_ne_nil h
  refine le_trans ?_ (le_cstar_of_mem _ v (List.mem_cons_self _ _))
  have hmem : v ∈ (v :: t).filter (fun w => decide (w.voteItem.voteId = v.voteItem.voteId)) :=
    List.mem_filter.mpr ⟨List.mem_cons_self _ _, by simp⟩
  exact List.length_pos_of_mem hmem

theorem maxLoop_eq_or_mem (l : List (Bytes × Nat)) :
    ∀ acc, maxLoop acc l = acc ∨ maxLoop acc l ∈ l := by
  induction l with
  | nil => intro acc; left; rfl
  | cons b rest ih =>
    intro acc
    simp only [maxLoop]
    rcases ih (if acc.2 < b.2 then b else acc) with h | h
    · rw [h]
      by_cases hc : acc.2 < b.2
      · rw [if_pos hc]; right; exact List.mem_cons_self _ _
      · rw [if_neg hc]; left; rfl
    · right; exact List.mem_cons_of_mem _ h

theorem le_maxLoop_snd (l : List (Bytes × Nat)) :
    ∀ acc, acc.2 ≤ (maxLoop acc l).2 := by
  induction l with
  | nil => intro acc; exact le_refl _
  | cons b rest ih =>
    intro acc
    simp only [maxLoop]
    refine le_trans ?_ (ih _)
    by_cases hc : acc.2 < b.2
    · rw [if_pos hc]; exact le_of_lt hc
    · rw [if_neg hc]

theorem mem_maxLoop_le (l : List (Bytes × Nat)) :
    ∀ acc, ∀ x ∈ l, x.2 ≤ (maxLoop acc l).2 := by
  induction l with
  | nil => intro acc x hx; cases hx
  | cons b rest ih =>
    intro acc x hx
    rcases List.mem_cons.mp hx with h | h
    · subst h
      simp only [maxLoop]
      refine le_trans ?_ (le_maxLoop_snd rest _)
      by_cases hc : acc.2 < x.2
      · rw [if_pos hc]
      · rw [if_neg hc]; exact le_of_not_lt hc
    · exact ih _ x h

theorem maxLoop_snd_eq_cstar (pool : List DPosVote) (order : List Bytes)
    (h : order.Perm (voteIds pool).dedup) :
    (maxLoop ([], 0) (voteStatList pool order)).2 = cstar pool := by
  apply le_antisymm
  · rcases maxLoop_eq_or_mem (voteStatList pool order) ([], 0) with heq | hmem
    · rw [heq]; exact Nat.zero_le _
    · obtain ⟨k, hk, hkeq⟩ := List.mem_map.mp hmem
      have hk2 : (maxLoop ([], 0) (voteStatList pool order)).2 = countVotes pool k := by
        rw [← hkeq]
      have hkpool : k ∈ voteIds pool := List.mem_dedup.mp (h.mem_iff.mp hk)
      obtain ⟨v, hv, hvid⟩ := List.mem_map.mp hkpool
      rw [hk2, ← hvid]
      exact le_cstar_of_mem pool v hv
  · rcases cstar_eq_zero_or_mem pool with h0 | ⟨v, hv, hev⟩
    · rw [h0]; exact Nat.zero_le _
    · have hkmem : v.voteItem.voteId ∈ order :=
        h.mem_iff.mpr (List.mem_dedup.mpr (List.mem_map_of_mem _ hv))
      have hstat : (v.voteItem.voteId, countVotes pool v.voteItem.voteId) ∈
          voteStatList pool order := List.mem_map_of_mem _ hkmem
      have := mem_maxLoop_le (voteStatList pool order) ([], 0) _ hstat
      rw [hev]; exact this

theorem checkVotesWithOrder_eq (n : Nat) (pool : List DPosVote) (order : List Bytes) :
    checkVotesWithOrder n pool order =
      if pool.length < major32 n then (continueToVote, none)
      else if major32 n ≤ (maxLoop ([], 0) (voteStatList pool order)).2 then
        match pool.find? (fun v =>
            decide (v.voteItem.voteId = (maxLoop ([], 0) (voteStatList pool order)).1)) with
        | some w => (voteSuccess, some w.voteItem)
        | none => (continueToVote, none)
      else if ((maxLoop ([], 0) (voteStatList pool order)).2 : Int) +
          ((n : Int) - (pool.length : Int)) < (major32 n : Int) then (voteFail, none)
      else (continueToVote, none) := rfl

/-- C1: CheckVotes returns continueToVote when the pool is smaller than
`M = floor(N*2/3)`; otherwise, with `cstar` the maximum multiset count of a
vote id over the pool, it returns voteSuccess together with a VoteItem whose
vote id has count at least `M` when `cstar >= M` (the pool being nonempty),
returns voteFail when `cstar < M` and `cstar + (N - |P|) < M`, and returns
continueToVote otherwise — for every iteration order of the internal count
map.  The concrete N = 21 examples are instantiated in the witness. -/
theorem checkVotes_spec (n : Nat) (pool : List DPosVote) (order : List Bytes)
    (horder : order.Perm (voteIds pool).dedup) :
    (pool.length < major32 n → checkVotesWithOrder n pool order = (continueToVote, none)) ∧
    (major32 n ≤ pool.length → major32 n ≤ cstar pool → pool ≠ [] →
      ∃ item, checkVotesWithOrder n pool order = (voteSuccess, some item) ∧
        major32 n ≤ countVotes pool item.voteId) ∧
    (major32 n ≤ pool.length → cstar pool < major32 n →
      (cstar pool : Int) + ((n : Int) - (pool.length : Int)) < (major32 n : Int) →
      checkVotesWithOrder n pool order = (voteFail, none)) ∧
    (major32 n ≤ pool.length → cstar pool < major32 n →
      ¬((cstar pool : Int) + ((n : Int) - (pool.length : Int)) < (major32 n : Int)) →
      checkVotesWithOrder n pool order = (continueToVote, none)) := by
  have hval : (maxLoop ([], 0) (voteStatList pool order)).2 = cstar pool :=
    maxLoop_snd_eq_cstar pool order horder
  refine ⟨?_, ?_, ?_, ?_⟩
  · intro h
    rw [checkVotesWithOrder_eq, if_pos h]
  · intro hlen hc hne
    have hnotlt : ¬(pool.length < major32 n) := not_lt.mpr hlen
    have h2 : major32 n ≤ (maxLoop ([], 0) (voteStatList pool order)).2 := by
      rw [hval]; exact hc
    have hpos : 1 ≤ (maxLoop ([], 0) (voteStatList pool order)).2 := by
      rw [hval]; exact one_le_cstar pool hne
    have hmem : maxLoop ([], 0) (voteStatList pool order) ∈ voteStatList pool order := by
      rcases maxLoop_eq_or_mem (voteStatList pool order) ([], 0) with he | hm
      · rw [he] at hpos; exact absurd hpos (by decide)
      · exact hm
    obtain ⟨k, hk, hkeq⟩ := List.mem_map.mp hmem
    have hk1 : (maxLoop ([], 0) (voteStatList pool order)).1 = k := by rw [← hkeq]
    have hk2 : (maxLoop ([], 0) (voteStatList pool order)).2 = countVotes pool k := by
      rw [← hkeq]
    have hkpool : k ∈ voteIds pool := List.mem_dedup.mp (horder.mem_iff.mp hk)
    obtain ⟨v, hv, hvid⟩ := List.mem_map.mp hkpool
    have hfind : (pool.find? (fun w =>
        decide (w.voteItem.voteId = (maxLoop ([], 0) (voteStatList pool order)).1))).isSome :=
      List.find?_isSome.mpr ⟨v, hv, by simp [hk1, hvid]⟩
    obtain ⟨w, hw⟩ := Option.isSome_iff_exists.mp hfind
    have hwid : w.voteItem.voteId = k := by
      have := List.find?_some hw
      rw [hk1] at this
      simpa using this
    refine ⟨w.voteItem, ?_, ?_⟩
    · rw [checkVotesWithOrder_eq, if_neg hnotlt, if_pos h2, hw]
    · rw [hwid, ← hk2, hval]; exact hc
  · intro hlen hclt hfail
    have hnotlt : ¬(pool.length < major32 n) := not_lt.mpr hlen
    have h2 : ¬(major32 n ≤ (maxLoop ([], 0) (voteStatList pool order)).2) := by
      rw [hval]; exact not_le.mpr hclt
    have hcast : ((maxLoop ([], 0) (voteStatList pool order)).2 : Int) = (cstar pool : Int) := by
      exact_mod_cast congrArg Nat.cast hval
    rw [checkVotesWithOrder_eq, if_neg hnotlt, if_neg h2, if_pos (by rw [hcast]; exact hfail)]
  · intro hlen hclt hfail
    have hnotlt : ¬(pool.length < major32 n) := not_lt.mpr hlen
    have h2 : ¬(major32 n ≤ (maxLoop ([], 0) (voteStatList pool order)).2) := by
      rw [hval]; exact not_le.mpr hclt
    have hcast : ((maxLoop ([], 0) (voteStatList pool order)).2 : Int) = (cstar pool : Int) := by
      exact_mod_cast congrArg Nat.cast hval
    rw [checkVotesWithOrder_eq, if_neg hnotlt, if_neg h2, if_neg (by rw [hcast]; exact hfail)]

/-- C1 witness: the three N = 21 boundary examples of the claim, obtained by
instantiating the tally theorem at concrete pools: 13 identical votes
continue, a 14th identical vote succeeds with a vote id counted 14 times,
and a 21-vote 8/7/6 split fails. -/
theorem checkVotes_spec_witness :
    checkVotesWithOrder 21 pool13 (voteIds pool13).dedup = (continueToVote, none) ∧
    (∃ item, checkVotesWithOrder 21 pool14 (voteIds pool14).dedup = (voteSuccess, some item) ∧
      major32 21 ≤ countVotes pool14 item.voteId) ∧
    checkVotesWithOrder 21 pool21 (voteIds pool21).dedup = (voteFail, none) :=
  ⟨(checkVotes_spec 21 pool13 _ (List.Perm.refl _)).1 (by decide),
    (checkVotes_spec 21 pool14 _ (List.Perm.refl _)).2.1 (by decide) (by decide) (by decide),
    (checkVotes_spec 21 pool21 _ (List.Perm.refl _)).2.2.1 (by decide) (by decide) (by decide)⟩

theorem maxLoop_key_spec (pool : List DPosVote) (order : List Bytes)
    (horder : order.Perm (voteIds pool).dedup) (hne : pool ≠ []) :
    (maxLoop ([], 0) (voteStatList pool order)).1 ∈ (voteIds pool).dedup ∧
    countVotes pool (maxLoop ([], 0) (voteStatList pool order)).1 = cstar pool := by
  have hval : (maxLoop ([], 0) (voteStatList pool order)).2 = cstar pool :=
    maxLoop_snd_eq_cstar pool order horder
  have hpos : 1 ≤ (maxLoop ([], 0) (voteStatList pool order)).2 := by
    rw [hval]; exact one_le_cstar pool hne
  have hmem : maxLoop ([], 0) (voteStatList pool order) ∈ voteStatList pool order := by
    rcases maxLoop_eq_or_mem (voteStatList pool order) ([], 0) with he | hm
    · rw [he] at hpos; exact absurd hpos (by decide)
    · exact hm
  obtain ⟨k, hk, hkeq⟩ := List.mem_map.mp hmem
  have hk1 : (maxLoop ([], 0) (voteStatList pool order)).1 = k := by rw [← hkeq]
  have hk2 : (maxLoop ([], 0) (voteStatList pool order)).2 = countVotes pool k := by rw [← hkeq]
  constructor
  · rw [hk1]; exact horder.mem_iff.mp hk
  · rw [hk1, ← hk2, hval]

/-- C8 (amended): the tally classification is a pure function of the pool —
any two iteration orders of the internal count map yield the same
classification — and the returned VoteItem in the voteSuccess case is also
the same provided a single vote id attains the maximum count; the claim as
stated fails when two vote ids tie at a count that reaches the threshold
(see the counterexample). -/
theorem checkVotes_deterministic (n : Nat) (pool : List DPosVote) (o1 o2 : List Bytes)
    (h1 : o1.Perm (voteIds pool).dedup) (h2 : o2.Perm (voteIds pool).dedup) :
    (checkVotesWithOrder n pool o1).1 = (checkVotesWithOrder n pool o2).1 ∧
    ((∀ k1 k2, k1 ∈ (voteIds pool).dedup → k2 ∈ (voteIds pool).dedup →
        countVotes pool k1 = cstar pool → countVotes pool k2 = cstar pool → k1 = k2) →
      checkVotesWithOrder n pool o1 = checkVotesWithOrder n pool o2) := by
  have hv1 : (maxLoop ([], 0) (voteStatList pool o1)).2 = cstar pool :=
    maxLoop_snd_eq_cstar pool o1 h1
  have hv2 : (maxLoop ([], 0) (voteStatList pool o2)).2 = cstar pool :=
    maxLoop_snd_eq_cstar pool o2 h2
  by_cases hlen : pool.length < major32 n
  · constructor
    · rw [checkVotesWithOrder_eq n pool o1, checkVotesWithOrder_eq n pool o2,
        if_pos hlen, if_pos hlen]
    · intro _
      rw [checkVotesWithOrder_eq n pool o1, checkVotesWithOrder_eq n pool o2,
        if_pos hlen, if_pos hlen]
  · by_cases hcs : major32 n ≤ cstar pool
    · by_cases hne : pool = []
      · subst hne
        have ho1 : o1 = [] := h1.eq_nil
        have ho2 : o2 = [] := h2.eq_nil
        subst ho1; subst ho2
        exact ⟨rfl, fun _ => rfl⟩
      · obtain ⟨hk1mem, hk1count⟩ := maxLoop_key_spec pool o1 h1 hne
        obtain ⟨hk2mem, hk2count⟩ := maxLoop_key_spec pool o2 h2 hne
        have hle1 : major32 n ≤ (maxLoop ([], 0) (voteStatList pool o1)).2 := by
          rw [hv1]; exact hcs
        have hle2 : major32 n ≤ (maxLoop ([], 0) (voteStatList pool o2)).2 := by
          rw [hv2]; exact hcs
        have hid1 : (maxLoop ([], 0) (voteStatList pool o1)).1 ∈ voteIds pool :=
          List.mem_dedup.mp hk1mem
        have hid2 : (maxLoop ([], 0) (voteStatList pool o2)).1 ∈ voteIds pool :=
          List.mem_dedup.mp hk2mem
        obtain ⟨w1v, hw1v, hw1id⟩ := List.mem_map.mp hid1
        obtain ⟨w2v, hw2v, hw2id⟩ := List.mem_map.mp hid2
        have hf1 : (pool.find? (fun w =>
            decide (w.voteItem.voteId = (maxLoop ([], 0) (voteStatList pool o1)).1))).isSome :=
          List.find?_isSome.mpr ⟨w1v, hw1v, by simp [hw1id]⟩
        have hf2 : (pool.find? (fun w =>
            decide (w.voteItem.voteId = (maxLoop ([], 0) (voteStatList pool o2)).1))).isSome :=
          List.find?_isSome.mpr ⟨w2v, hw2v, by simp [hw2id]⟩
        obtain ⟨u1, hu1⟩ := Option.isSome_iff_exists.mp hf1
        obtain ⟨u2, hu2⟩ := Option.isSome_iff_exists.mp hf2
        constructor
        · rw [checkVotesWithOrder_eq n pool o1, checkVotesWithOrder_eq n pool o2,
            if_neg hlen, if_neg hlen, if_pos hle1, if_pos hle2, hu1, hu2]
        · intro huniq
          have hkeys : (maxLoop ([], 0) (voteStatList pool o1)).1 =
              (maxLoop ([], 0) (voteStatList pool o2)).1 :=
            huniq _ _ hk1mem hk2mem hk1count hk2count
          have hu2' := hu2
          rw [← hkeys] at hu2'
          have huu : u1 = u2 := Option.some.inj (hu1.symm.trans hu2')
          rw [checkVotesWithOrder_eq n pool o1, checkVotesWithOrder_eq n pool o2,
            if_neg hlen, if_neg hlen, if_pos hle1, if_pos hle2, hu1, hu2, huu]
    · have hlt1 : ¬(major32 n ≤ (maxLoop ([], 0) (voteStatList pool o1)).2) := by
        rw [hv1]; exact hcs
      have hlt2 : ¬(major32 n ≤ (maxLoop ([], 0) (voteStatList pool o2)).2) := by
        rw [hv2]; exact hcs
      have hc1 : ((maxLoop ([], 0) (voteStatList pool o1)).2 : Int) = (cstar pool : Int) := by
        exact_mod_cast congrArg Nat.cast hv1
      have hc2 : ((maxLoop ([], 0) (voteStatList pool o2)).2 : Int) = (cstar pool : Int) := by
        exact_mod_cast congrArg Nat.cast hv2
      by_cases hfail : (cstar pool : Int) + ((n : Int) - (pool.length : Int)) < (major32 n : Int)
      · constructor
        · rw [checkVotesWithOrder_eq n pool o1, checkVotesWithOrder_eq n pool o2,
            if_neg hlen, if_neg hlen, if_neg hlt1, if_neg hlt2,
            if_pos (by rw [hc1]; exact hfail), if_pos (by rw [hc2]; exact hfail)]
        · intro _
          rw [checkVotesWithOrder_eq n pool o1, checkVotesWithOrder_eq n pool o2,
            if_neg hlen, if_neg hlen, if_neg hlt1, if_neg hlt2,
            if_pos (by rw [hc1]; exact hfail), if_pos (by rw [hc2]; exact hfail)]
      · constructor
        · rw [checkVotesWithOrder_eq n pool o1, checkVotesWithOrder_eq n pool o2,
            if_neg hlen, if_neg hlen, if_neg hlt1, if_neg hlt2,
            if_neg (by rw [hc1]; exact hfail), if_neg (by rw [hc2]; exact hfail)]
        · intro _
          rw [checkVotesWithOrder_eq n pool o1, checkVotesWithOrder_eq n pool o2,
            if_neg hlen, if_neg hlen, if_neg hlt1, if_neg hlt2,
            if_neg (by rw [hc1]; exact hfail), if_neg (by rw [hc2]; exact hfail)]

/-- C8 counterexample: with N = 2 (threshold 1) and a two-vote pool split
across two vote ids, the two iteration orders of the count map are both
permutations of the key set yet return different VoteItems, so the returned
VoteItem is not independent of the iteration order. -/
theorem checkVotes_deterministic_cex :
    (([[0], [1]] : List Bytes).Perm (voteIds poolTie).dedup) ∧
    (([[1], [0]] : List Bytes).Perm (voteIds poolTie).dedup) ∧
    checkVotesWithOrder 2 poolTie [[0], [1]] ≠ checkVotesWithOrder 2 poolTie [[1], [0]] :=
  ⟨by decide, by decide, by decide⟩

/-- C8 witness: the classification agrees on the tied pool for both
iteration orders, and on a pool with a unique maximum the full result is
order-independent. -/
theorem checkVotes_deterministic_witness :
    (checkVotesWithOrder 2 poolTie [[0], [1]]).1 =
      (checkVotesWithOrder 2 poolTie [[1], [0]]).1 ∧
    checkVotesWithOrder 21 pool14 [[7]] =
      checkVotesWithOrder 21 pool14 (voteIds pool14).dedup :=
  ⟨(checkVotes_deterministic 2 poolTie [[0], [1]] [[1], [0]] (by decide) (by decide)).1,
    (checkVotes_deterministic 21 pool14 [[7]] (voteIds pool14).dedup (by decide)
        (List.Perm.refl _)).2
      (by
        intro k1 k2 hk1 hk2 _ _
        rw [(by decide : (voteIds pool14).dedup = ([[7]] : List Bytes))] at hk1 hk2
        have e1 : k1 = [7] := by simpa using hk1
        have e2 : k2 = [7] := by simpa using hk2
        rw [e1, e2])⟩

theorem poolAdmit_no_match (v : DPosVote) (pool : List DPosVote)
    (h : ∀ p ∈ pool, p.signature ≠ v.signature ∧ p.voterNodeAddress ≠ v.voterNodeAddress) :
    poolAdmit v pool = pool ++ [v] := by
  induction pool with
  | nil => rfl
  | cons p rest ih =>
    obtain ⟨hs, ha⟩ := h p (List.mem_cons_self _ _)
    simp only [poolAdmit, if_neg hs, if_neg ha]
    rw [ih (fun q hq => h q (List.mem_cons_of_mem _ hq))]
    rfl

theorem poolAdmit_sig_first (v : DPosVote) (l : List DPosVote) (p : DPosVote)
    (r : List DPosVote) (hp : p.signature = v.signature)
    (hl : ∀ q ∈ l, q.signature ≠ v.signature ∧ q.voterNodeAddress ≠ v.voterNodeAddress) :
    poolAdmit v (l ++ p :: r) = l ++ p :: r := by
  induction l with
  | nil => simp only [List.nil_append, poolAdmit, if_pos hp]
  | cons q t ih =>
    obtain ⟨hs, ha⟩ := hl q (List.mem_cons_self _ _)
    simp only [List.cons_append, poolAdmit, if_neg hs, if_neg ha, List.append_eq]
    rw [ih (fun x hx => hl x (List.mem_cons_of_mem _ hx))]

theorem poolAdmit_addr_first (v : DPosVote) (l : List DPosVote) (p : DPosVote)
    (r : List DPosVote) (hps : p.signature ≠ v.signature)
    (hpa : p.voterNodeAddress = v.voterNodeAddress)
    (hl : ∀ q ∈ l, q.signature ≠ v.signature ∧ q.voterNodeAddress ≠ v.voterNodeAddress) :
    poolAdmit v (l ++ p :: r) =
      if p.voteTimestamp < v.voteTimestamp then l ++ v :: r else l ++ p :: r := by
  induction l with
  | nil =>
    simp only [List.nil_append, poolAdmit, if_neg hps, if_pos hpa]
  | cons q t ih =>
    obtain ⟨hs, ha⟩ := hl q (List.mem_cons_self _ _)
    simp only [List.cons_append, poolAdmit, if_neg hs, if_neg ha, List.append_eq]
    rw [ih (fun x hx => hl x (List.mem_cons_of_mem _ hx))]
    by_cases ht : p.voteTimestamp < v.voteTimestamp
    · rw [if_pos ht, if_pos ht]
    · rw [if_neg ht, if_neg ht]

theorem addVotes_stale (cs : ConsensusState) (v : DPosVote) (lv : VoteItem)
    (hlv : cs.lastVote = some lv) (hst : v.voteItem.periodStart < lv.periodStop) :
    AddVotes cs v = cs := by
  unfold AddVotes
  rw [hlv]
  exact if_pos hst

theorem addVotes_dposVotes_eq (cs : ConsensusState) (v : DPosVote)
    (hns : ∀ lv, cs.lastVote = some lv → lv.periodStop ≤ v.voteItem.periodStart) :
    (AddVotes cs v).dposVotes = poolAdmit v cs.dposVotes := by
  unfold AddVotes
  split
  · rename_i lv h
    rw [if_neg (not_lt.mpr (hns lv h))]
  · rfl

/-- C2 (amended): AddVotes first applies the staleness guard; then it scans
the pool in order and acts on the first entry matching either discriminator:
a signature match discards the vote, an address match replaces that entry
exactly when the incoming timestamp is strictly larger (else discards), and
when no entry matches either, the vote is appended.  The signature rule as
stated in the claim only takes precedence when the signature-matching entry
is not preceded by an address-matching one (see the counterexample). -/
theorem addVotes_spec (cs : ConsensusState) (v : DPosVote) :
    (∀ lv, cs.lastVote = some lv → v.voteItem.periodStart < lv.periodStop →
      AddVotes cs v = cs) ∧
    ((∀ lv, cs.lastVote = some lv → lv.periodStop ≤ v.voteItem.periodStart) →
      ((∀ p ∈ cs.dposVotes,
          p.signature ≠ v.signature ∧ p.voterNodeAddress ≠ v.voterNodeAddress) →
        (AddVotes cs v).dposVotes = cs.dposVotes ++ [v]) ∧
      (∀ l p r, cs.dposVotes = l ++ p :: r → p.signature = v.signature →
        (∀ q ∈ l, q.signature ≠ v.signature ∧ q.voterNodeAddress ≠ v.voterNodeAddress) →
        (AddVotes cs v).dposVotes = cs.dposVotes) ∧
      (∀ l p r, cs.dposVotes = l ++ p :: r → p.signature ≠ v.signature →
        p.voterNodeAddress = v.voterNodeAddress →
        (∀ q ∈ l, q.signature ≠ v.signature ∧ q.voterNodeAddress ≠ v.voterNodeAddress) →
        (AddVotes cs v).dposVotes =
          if p.voteTimestamp < v.voteTimestamp then l ++ v :: r else cs.dposVotes)) := by
  refine ⟨fun lv hlv hst => addVotes_stale cs v lv hlv hst, fun hns => ⟨?_, ?_, ?_⟩⟩
  · intro hno
    rw [addVotes_dposVotes_eq cs v hns]
    exact poolAdmit_no_match v cs.dposVotes hno
  · intro l p r hsplit hp hl
    rw [addVotes_dposVotes_eq cs v hns, hsplit]
    exact poolAdmit_sig_first v l p r hp hl
  · intro l p r hsplit hps hpa hl
    rw [addVotes_dposVotes_eq cs v hns, hsplit]
    exact poolAdmit_addr_first v l p r hps hpa hl

/-- C2 counterexample: the pool holds voteA (address 1, signature 9) then
voteB (address 2, signature 8); the incoming voteDup carries voteB's
signature but voteA's address and a larger timestamp.  The claim's rule
order demands a discard because a pool entry with a byte-equal signature
exists, yet AddVotes replaces voteA, changing the pool. -/
theorem addVotes_spec_cex :
    (∃ p ∈ [voteA, voteB], p.signature = voteDup.signature) ∧
    (AddVotes { initialConsensusState with dposVotes := [voteA, voteB] } voteDup).dposVotes ≠
      [voteA, voteB] :=
  ⟨⟨voteB, by decide, by decide⟩, by decide⟩

/-- C2 witness: the claim's concrete example — admitting (V1, ts = 100,
vote id 88) then (V1, ts = 101, vote id 89) leaves one entry carrying
vote id 89 — instantiated through the amended admission theorem. -/
theorem addVotes_spec_witness :
    (AddVotes { initialConsensusState with dposVotes := [voteU1] } voteU2).dposVotes = [voteU2] ∧
    voteU2.voteItem.voteId = [89] := by
  constructor
  · have h := ((addVotes_spec { initialConsensusState with dposVotes := [voteU1] } voteU2).2
      (by intro lv hlv; simp [initialConsensusState] at hlv)).2.2 [] voteU1 [] rfl
      (by decide) (by decide) (by intro q hq; cases hq)
    rw [if_pos (by decide)] at h
    simpa using h
  · rfl

theorem poolAdmit_map_mem {α : Type} (f : DPosVote → α) (v : DPosVote)
    (pool : List DPosVote) :
    ∀ x ∈ (poolAdmit v pool).map f, x ∈ pool.map f ∨ x = f v := by
  induction pool with
  | nil =>
    intro x hx
    simp only [poolAdmit, List.map_cons, List.map_nil] at hx
    right; simpa using hx
  | cons p rest ih =>
    intro x hx
    by_cases hs : p.signature = v.signature
    · simp only [poolAdmit, if_pos hs] at hx
      left; exact hx
    · by_cases ha : p.voterNodeAddress = v.voterNodeAddress
      · by_cases ht : p.voteTimestamp < v.voteTimestamp
        · simp only [poolAdmit, if_neg hs, if_pos ha, if_pos ht, List.map_cons,
            List.mem_cons] at hx
          rcases hx with h | h
          · right; exact h
          · left; simp only [List.map_cons, List.mem_cons]; right; exact h
        · simp only [poolAdmit, if_neg hs, if_pos ha, if_neg ht] at hx
          left; exact hx
      · simp only [poolAdmit, if_neg hs, if_neg ha, List.map_cons, List.mem_cons] at hx
        rcases hx with h | h
        · left; simp only [List.map_cons, List.mem_cons]; left; exact h
        · rcases ih x h with h2 | h2
          · left; simp only [List.map_cons, List.mem_cons]; right; exact h2
          · right; exact h2

theorem addrs_nodup_poolAdmit (v : DPosVote) (pool : List DPosVote)
    (h : (pool.map (fun p => p.voterNodeAddress)).Nodup) :
    ((poolAdmit v pool).map (fun p => p.voterNodeAddress)).Nodup := by
  induction pool with
  | nil => simp [poolAdmit]
  | cons p rest ih =>
    have h' := h
    rw [List.map_cons] at h'
    obtain ⟨hhead, htail⟩ := List.nodup_cons.mp h'
    by_cases hs : p.signature = v.signature
    · simpa [poolAdmit, if_pos hs] using h
    · by_cases ha : p.voterNodeAddress = v.voterNodeAddress
      · by_cases ht : p.voteTimestamp < v.voteTimestamp
        · simp only [poolAdmit, if_neg hs, if_pos ha, if_pos ht, List.map_cons]
          exact List.nodup_cons.mpr ⟨by rw [← ha]; exact hhead, htail⟩
        · simpa [poolAdmit, if_neg hs, if_pos ha, if_neg ht] using h
      · simp only [poolAdmit, if_neg hs, if_neg ha, List.map_cons]
        refine List.nodup_cons.mpr ⟨?_, ih htail⟩
        intro hmem
        rcases poolAdmit_map_mem (fun p => p.voterNodeAddress) v rest _ hmem with h2 | h2
        · exact hhead h2
        · exact ha h2

theorem sigs_nodup_poolAdmit (v : DPosVote) (pool : List DPosVote)
    (hsig : (pool.map (fun p => p.signature)).Nodup)
    (haddr : (pool.map (fun p => p.voterNodeAddress)).Nodup)
    (hbind : ∀ p ∈ pool, p.signature = v.signature →
      p.voterNodeAddress = v.voterNodeAddress) :
    ((poolAdmit v pool).map (fun p => p.signature)).Nodup := by
  induction pool with
  | nil => simp [poolAdmit]
  | cons p rest ih =>
    have hsig' := hsig
    rw [List.map_cons] at hsig'
    obtain ⟨hshead, hstail⟩ := List.nodup_cons.mp hsig'
    have haddr' := haddr
    rw [List.map_cons] at haddr'
    obtain ⟨hahead, hatail⟩ := List.nodup_cons.mp haddr'
    by_cases hs : p.signature = v.signature
    · simpa [poolAdmit, if_pos hs] using hsig
    · by_cases ha : p.voterNodeAddress = v.voterNodeAddress
      · by_cases ht : p.voteTimestamp < v.voteTimestamp
        · simp only [poolAdmit, if_neg hs, if_pos ha, if_pos ht, List.map_cons]
          refine List.nodup_cons.mpr ⟨?_, hstail⟩
          intro hmem
          obtain ⟨q, hq, hqsig⟩ := List.mem_map.mp hmem
          have hqaddr : q.voterNodeAddress = v.voterNodeAddress :=
            hbind q (List.mem_cons_of_mem _ hq) hqsig
          exact hahead (by rw [ha, ← hqaddr]; exact List.mem_map_of_mem _ hq)
        · simpa [poolAdmit, if_neg hs, if_pos ha, if_neg ht] using hsig
      · simp only [poolAdmit, if_neg hs, if_neg ha, List.map_cons]
        refine List.nodup_cons.mpr
          ⟨?_, ih hstail hatail (fun q hq => hbind q (List.mem_cons_of_mem _ hq))⟩
        intro hmem
        rcases poolAdmit_map_mem (fun p => p.signature) v rest _ hmem with h2 | h2
        · exact hshead h2
        · exact hs h2

theorem addVotes_votes_cases (cs : ConsensusState) (v : DPosVote) :
    (AddVotes cs v).dposVotes = cs.dposVotes ∨
      (AddVotes cs v).dposVotes = poolAdmit v cs.dposVotes := by
  unfold AddVotes
  split
  · rename_i lv h
    by_cases hst : v.voteItem.periodStart < lv.periodStop
    · rw [if_pos hst]; left; rfl
    · rw [if_neg hst]; right; rfl
  · right; rfl

/-- C4 (amended): AddVotes and CacheVotes preserve the no-duplicate-address
invariant unconditionally, and preserve the no-duplicate-signature invariant
provided every admitted vote whose signature equals a pool entry's also
carries that entry's voter address (in particular whenever admitted votes
have pairwise distinct signatures); the unqualified signature invariant of
the claim fails (see the counterexample). -/
theorem votePool_invariants (cs : ConsensusState) (v : DPosVote) :
    ((cs.dposVotes.map (fun p => p.voterNodeAddress)).Nodup →
      (((AddVotes cs v).dposVotes).map (fun p => p.voterNodeAddress)).Nodup) ∧
    ((cs.cachedVotes.map (fun p => p.voterNodeAddress)).Nodup →
      (((CacheVotes cs v).cachedVotes).map (fun p => p.voterNodeAddress)).Nodup) ∧
    ((cs.dposVotes.map (fun p => p.signature)).Nodup →
      (cs.dposVotes.map (fun p => p.voterNodeAddress)).Nodup →
      (∀ p ∈ cs.dposVotes, p.signature = v.signature →
        p.voterNodeAddress = v.voterNodeAddress) →
      (((AddVotes cs v).dposVotes).map (fun p => p.signature)).Nodup) ∧
    ((cs.cachedVotes.map (fun p => p.signature)).Nodup →
      (cs.cachedVotes.map (fun p => p.voterNodeAddress)).Nodup →
      (∀ p ∈ cs.cachedVotes, p.signature = v.signature →
        p.voterNodeAddress = v.voterNodeAddress) →
      (((CacheVotes cs v).cachedVotes).map (fun p => p.signature)).Nodup) := by
  refine ⟨?_, ?_, ?_, ?_⟩
  · intro h
    rcases addVotes_votes_cases cs v with he | he
    · rw [he]; exact h
    · rw [he]; exact addrs_nodup_poolAdmit v cs.dposVotes h
  · intro h
    exact addrs_nodup_poolAdmit v cs.cachedVotes h
  · intro hsig haddr hbind
    rcases addVotes_votes_cases cs v with he | he
    · rw [he]; exact hsig
    · rw [he]; exact sigs_nodup_poolAdmit v cs.dposVotes hsig haddr hbind
  · intro hsig haddr hbind
    exact sigs_nodup_poolAdmit v cs.cachedVotes hsig haddr hbind

/-- C4 counterexample: starting from the empty pool, admitting voteA
(address 1, signature 9), then voteB (address 2, signature 8), then voteDup
(address 1, signature 8, larger timestamp) ends with two pool entries whose
signatures are byte-equal, refuting the unconditional signature invariant. -/
theorem votePool_invariants_cex :
    ¬(((AddVotes (AddVotes (AddVotes initialConsensusState voteA) voteB) voteDup).dposVotes.map
        (fun p => p.signature)).Nodup) := by decide

/-- C4 witness: the address invariant is preserved on a concrete admission. -/
theorem votePool_invariants_witness :
    (((AddVotes { initialConsensusState with dposVotes := [voteA] } voteB).dposVotes.map
        (fun p => p.voterNodeAddress)).Nodup) :=
  (votePool_invariants { initialConsensusState with dposVotes := [voteA] } voteB).1 (by decide)

theorem receiveRoutine_no_panic (evs : List HandlerOutcome)
    (h : HandlerOutcome.panics ∉ evs) : receiveRoutine evs = (evs.length, false) := by
  induction evs with
  | nil => rfl
  | cons e rest ih =>
    cases e with
    | normal =>
      simp only [receiveRoutine, ih (fun hm => h (List.mem_cons_of_mem _ hm)),
        List.length_cons]
    | panics => exact absurd (List.mem_cons_self _ _) h

theorem receiveRoutine_panic (pre post : List HandlerOutcome)
    (h : HandlerOutcome.panics ∉ pre) :
    receiveRoutine (pre ++ HandlerOutcome.panics :: post) = (pre.length + 1, true) := by
  induction pre with
  | nil => rfl
  | cons e t ih =>
    cases e with
    | normal =>
      have ih' := ih (fun hm => h (List.mem_cons_of_mem _ hm))
      simp only [List.cons_append, receiveRoutine, List.append_eq, ih', List.length_cons]
    | panics => exact absurd (List.mem_cons_self _ _) h

/-- C3 (amended): a handler panic is caught by the deferred recover and the
CONSENSUS FAILURE diagnostic is logged, but since the recover sits at
function scope, outside the for loop, the routine then returns: the events
after the panicking one are not processed.  Without a panic every event is
processed and nothing is logged. -/
theorem receiveRoutine_spec (evs : List HandlerOutcome) :
    (HandlerOutcome.panics ∉ evs → receiveRoutine evs = (evs.length, false)) ∧
    (∀ pre post, evs = pre ++ HandlerOutcome.panics :: post →
      HandlerOutcome.panics ∉ pre → receiveRoutine evs = (pre.length + 1, true)) := by
  refine ⟨fun h => receiveRoutine_no_panic evs h, fun pre post he hp => ?_⟩
  rw [he]
  exact receiveRoutine_panic pre post hp

/-- C3 counterexample: with a panicking handler followed by a pending
message, the CONSENSUS FAILURE diagnostic is logged but only one of the two
events is processed — the loop did not continue to the subsequent message,
refuting the claim that a handler panic never terminates the event loop. -/
theorem receiveRoutine_spec_cex :
    (receiveRoutine [HandlerOutcome.panics, HandlerOutcome.normal]).2 = true ∧
    (receiveRoutine [HandlerOutcome.panics, HandlerOutcome.normal]).1 ≠
      [HandlerOutcome.panics, HandlerOutcome.normal].length :=
  ⟨rfl, by decide⟩

/-- C3 witness: one normal event, then a panic, then one more pending event:
two events are handled and the failure is logged. -/
theorem receiveRoutine_spec_witness :
    receiveRoutine [HandlerOutcome.normal, HandlerOutcome.panics, HandlerOutcome.normal] =
      (2, true) := by
  have h := (receiveRoutine_spec
      [HandlerOutcome.normal, HandlerOutcome.panics, HandlerOutcome.normal]).2
    [HandlerOutcome.normal] [HandlerOutcome.normal] rfl (by decide)
  simpa using h

theorem saveVote_frame (cs : ConsensusState) :
    (SaveVote cs).lastMyVote = cs.lastMyVote ∧ (SaveVote cs).lastNotify = cs.lastNotify := by
  unfold SaveVote
  repeat' split
  all_goals exact ⟨rfl, rfl⟩

theorem saveMyVote_frame (cs : ConsensusState) :
    (SaveMyVote cs).lastVote = cs.lastVote ∧ (SaveMyVote cs).lastNotify = cs.lastNotify := by
  unfold SaveMyVote
  repeat' split
  all_goals exact ⟨rfl, rfl⟩

theorem saveNotify_frame (cs : ConsensusState) :
    (SaveNotify cs).lastVote = cs.lastVote ∧ (SaveNotify cs).lastMyVote = cs.lastMyVote := by
  unfold SaveNotify
  repeat' split
  all_goals exact ⟨rfl, rfl⟩

theorem setNotify_frame (cs : ConsensusState) (n : DPosNotify) :
    (SetNotify cs n).lastVote = cs.lastVote ∧ (SetNotify cs n).lastMyVote = cs.lastMyVote := by
  unfold SetNotify
  repeat' split
  all_goals exact ⟨rfl, rfl⟩

theorem addVotes_frame (cs : ConsensusState) (v : DPosVote) :
    (AddVotes cs v).lastVote = cs.lastVote ∧ (AddVotes cs v).lastMyVote = cs.lastMyVote ∧
      (AddVotes cs v).lastNotify = cs.lastNotify := by
  unfold AddVotes
  repeat' split
  all_goals exact ⟨rfl, rfl, rfl⟩

theorem saveVote_pres (cs : ConsensusState) (h : cs.lastVote ≠ none) :
    (SaveVote cs).lastVote ≠ none := by
  unfold SaveVote
  split
  · rename_i h1
    exact absurd h1 h
  · rename_i lv h1
    split
    · rename_i cv h2
      split
      · exact h
      · simp
    · exact h

theorem saveMyVote_pres (cs : ConsensusState) (h : cs.lastMyVote ≠ none) :
    (SaveMyVote cs).lastMyVote ≠ none := by
  unfold SaveMyVote
  split
  · rename_i h1
    exact absurd h1 h
  · rename_i lmv h1
    split
    · rename_i mv h2
      split
      · exact h
      · simp
    · exact h

theorem saveNotify_pres (cs : ConsensusState) (h : cs.lastNotify ≠ none) :
    (SaveNotify cs).lastNotify ≠ none := by
  unfold SaveNotify
  split
  · rename_i h1
    exact absurd h1 h
  · rename_i ln h1
    split
    · rename_i nn h2
      split
      · exact h
      · simp
    · exact h

theorem setNotify_pres (cs : ConsensusState) (n : DPosNotify)
    (h : cs.lastNotify ≠ none) : (SetNotify cs n).lastNotify ≠ none := by
  unfold SetNotify
  split
  · rename_i cur h1
    split
    · exact h
    · simp
  · exact h

/-- C7: none of the state operations resets a populated `lastVote`,
`lastMyVote` or `lastNotify` slot to none; SaveVote adopts the current vote
when the last slot is empty or when the vote ids differ, the analogous
signature-discriminated rules hold for SaveMyVote and SaveNotify, and
ClearVotes leaves all three `last` slots untouched. -/
theorem lastSlots_monotonic (cs : ConsensusState) :
    (∀ op : Op,
      (cs.lastVote ≠ none → (applyOp cs op).lastVote ≠ none) ∧
      (cs.lastMyVote ≠ none → (applyOp cs op).lastMyVote ≠ none) ∧
      (cs.lastNotify ≠ none → (applyOp cs op).lastNotify ≠ none)) ∧
    (cs.lastVote = none → (SaveVote cs).lastVote = cs.currentVote) ∧
    (∀ lv cv, cs.lastVote = some lv → cs.currentVote = some cv → cv.voteId ≠ lv.voteId →
      (SaveVote cs).lastVote = some cv) ∧
    (cs.lastMyVote = none → (SaveMyVote cs).lastMyVote = cs.myVote) ∧
    (∀ lmv mv, cs.lastMyVote = some lmv → cs.myVote = some mv →
      mv.signature ≠ lmv.signature → (SaveMyVote cs).lastMyVote = some mv) ∧
    (cs.lastNotify = none → (SaveNotify cs).lastNotify = cs.notify) ∧
    (∀ ln nn, cs.lastNotify = some ln → cs.notify = some nn →
      nn.signature ≠ ln.signature → (SaveNotify cs).lastNotify = some nn) ∧
    ((ClearVotes cs).lastVote = cs.lastVote ∧ (ClearVotes cs).lastMyVote = cs.lastMyVote ∧
      (ClearVotes cs).lastNotify = cs.lastNotify) := by
  refine ⟨?_, ?_, ?_, ?_, ?_, ?_, ?_, rfl, rfl, rfl⟩
  · intro op
    cases op with
    | saveVote =>
      refine ⟨fun h => saveVote_pres cs h, fun h => ?_, fun h => ?_⟩
      · show (SaveVote cs).lastMyVote ≠ none
        rw [(saveVote_frame cs).1]; exact h
      · show (SaveVote cs).lastNotify ≠ none
        rw [(saveVote_frame cs).2]; exact h
    | setCurrentVote v => exact ⟨fun h => h, fun h => h, fun h => h⟩
    | saveMyVote =>
      refine ⟨fun h => ?_, fun h => saveMyVote_pres cs h, fun h => ?_⟩
      · show (SaveMyVote cs).lastVote ≠ none
        rw [(saveMyVote_frame cs).1]; exact h
      · show (SaveMyVote cs).lastNotify ≠ none
        rw [(saveMyVote_frame cs).2]; exact h
    | setMyVote v => exact ⟨fun h => h, fun h => h, fun h => h⟩
    | saveNotify =>
      refine ⟨fun h => ?_, fun h => ?_, fun h => saveNotify_pres cs h⟩
      · show (SaveNotify cs).lastVote ≠ none
        rw [(saveNotify_frame cs).1]; exact h
      · show (SaveNotify cs).lastMyVote ≠ none
        rw [(saveNotify_frame cs).2]; exact h
    | setNotify n =>
      refine ⟨fun h => ?_, fun h => ?_, fun h => setNotify_pres cs n h⟩
      · show (SetNotify cs n).lastVote ≠ none
        rw [(setNotify_frame cs n).1]; exact h
      · show (SetNotify cs n).lastMyVote ≠ none
        rw [(setNotify_frame cs n).2]; exact h
    | cacheNotify n => exact ⟨fun h => h, fun h => h, fun h => h⟩
    | clearCachedNotify => exact ⟨fun h => h, fun h => h, fun h => h⟩
    | addVotes v =>
      refine ⟨fun h => ?_, fun h => ?_, fun h => ?_⟩
      · show (AddVotes cs v).lastVote ≠ none
        rw [(addVotes_frame cs v).1]; exact h
      · show (AddVotes cs v).lastMyVote ≠ none
        rw [(addVotes_frame cs v).2.1]; exact h
      · show (AddVotes cs v).lastNotify ≠ none
        rw [(addVotes_frame cs v).2.2]; exact h
    | cacheVotes v => exact ⟨fun h => h, fun h => h, fun h => h⟩
    | clearVotes => exact ⟨fun h => h, fun h => h, fun h => h⟩
    | clearCachedVotes => exact ⟨fun h => h, fun h => h, fun h => h⟩
    | setState s => exact ⟨fun h => h, fun h => h, fun h => h⟩
    | updateCB i => exact ⟨fun h => h, fun h => h, fun h => h⟩
  · intro h
    unfold SaveVote
    rw [h]
  · intro lv cv h1 h2 hne
    unfold SaveVote
    rw [h1, h2]
    simp [hne]
  · intro h
    unfold SaveMyVote
    rw [h]
  · intro lmv mv h1 h2 hne
    unfold SaveMyVote
    rw [h1, h2]
    simp [hne]
  · intro h
    unfold SaveNotify
    rw [h]
  · intro ln nn h1 h2 hne
    unfold SaveNotify
    rw [h1, h2]
    simp [hne]

/-- C7 witness: on a state with all three last slots populated, ClearVotes
keeps lastVote populated, and SaveVote adopts a current vote whose id
differs. -/
theorem lastSlots_monotonic_witness :
    (applyOp sampleCS Op.clearVotes).lastVote ≠ none ∧
    (SaveVote sampleCS).lastVote = some (mkVote 4 6 0 2).voteItem :=
  ⟨((lastSlots_monotonic sampleCS).1 Op.clearVotes).1 (by decide),
    (lastSlots_monotonic sampleCS).2.2.1 (mkVote 3 5 0 0).voteItem
      (mkVote 4 6 0 2).voteItem rfl rfl (by decide)⟩

/-- C9: IsProposer returns false when no agreed current vote exists, and
otherwise returns true exactly when the agreed vote's proposer address is
byte-equal to the node's own validator address. -/
theorem isProposer_spec (cs : ConsensusState) :
    (cs.currentVote = none → IsProposer cs = false) ∧
    (∀ cv, cs.currentVote = some cv →
      (IsProposer cs = true ↔ cv.votedNodeAddress = cs.privValidatorAddress)) := by
  constructor
  · intro h
    unfold IsProposer
    rw [h]
  · intro cv h
    unfold IsProposer
    rw [h]
    simp

/-- C9 witness: the fresh state has no agreed vote and is not the proposer;
a state whose agreed vote carries its own address is the proposer. -/
theorem isProposer_spec_witness :
    IsProposer initialConsensusState = false ∧
    IsProposer { initialConsensusState with
      currentVote := some (mkVote 1 7 0 0).voteItem
      privValidatorAddress := [1] } = true :=
  ⟨(isProposer_spec initialConsensusState).1 rfl,
    ((isProposer_spec _).2 (mkVote 1 7 0 0).voteItem rfl).mpr (by decide)⟩

/-- C10: ClearVotes empties the vote pool and resets currentVote and myVote,
and leaves every other field of the consensus state unchanged. -/
theorem clearVotes_frame (cs : ConsensusState) :
    (ClearVotes cs).dposVotes = [] ∧ (ClearVotes cs).currentVote = none ∧
    (ClearVotes cs).myVote = none ∧ (ClearVotes cs).lastVote = cs.lastVote ∧
    (ClearVotes cs).lastMyVote = cs.lastMyVote ∧ (ClearVotes cs).notify = cs.notify ∧
    (ClearVotes cs).lastNotify = cs.lastNotify ∧
    (ClearVotes cs).cachedVotes = cs.cachedVotes ∧
    (ClearVotes cs).cachedNotify = cs.cachedNotify ∧
    (ClearVotes cs).cycleBoundaryMap = cs.cycleBoundaryMap ∧
    (ClearVotes cs).dposState = cs.dposState ∧
    (ClearVotes cs).privValidatorAddress = cs.privValidatorAddress :=
  ⟨rfl, rfl, rfl, rfl, rfl, rfl, rfl, rfl, rfl, rfl, rfl, rfl⟩

@[simp] theorem cbKeys_nil : cbKeys [] = [] := rfl

@[simp] theorem cbKeys_cons (kv : Int × DposCBInfo) (rest : List (Int × DposCBInfo)) :
    cbKeys (kv :: rest) = kv.1 :: cbKeys rest := rfl

@[simp] theorem assocSet_nil (c : Int) (i : DposCBInfo) : assocSet [] c i = [] := rfl

@[simp] theorem assocSet_cons (kv : Int × DposCBInfo) (rest : List (Int × DposCBInfo))
    (c : Int) (i : DposCBInfo) :
    assocSet (kv :: rest) c i = (if kv.1 = c then (c, i) else kv) :: assocSet rest c i := rfl

@[simp] theorem assocErase_nil (c : Int) : assocErase [] c = [] := rfl

theorem assocErase_cons (kv : Int × DposCBInfo) (rest : List (Int × DposCBInfo)) (c : Int) :
    assocErase (kv :: rest) c =
      if kv.1 = c then assocErase rest c else kv :: assocErase rest c := by
  by_cases h : kv.1 = c
  · simp [assocErase, List.filter_cons, h]
  · simp [assocErase, List.filter_cons, h]

@[simp] theorem cbLookup_nil (c : Int) : cbLookup [] c = none := rfl

theorem cbLookup_cons (kv : Int × DposCBInfo) (rest : List (Int × DposCBInfo)) (c : Int) :
    cbLookup (kv :: rest) c = if kv.1 = c then some kv.2 else cbLookup rest c := by
  by_cases h : kv.1 = c
  · rw [if_pos h]
    unfold cbLookup
    rw [List.find?_cons_of_pos _ (by simp [h])]
    rfl
  · rw [if_neg h]
    unfold cbLookup
    rw [List.find?_cons_of_neg _ (by simp [h])]

theorem cbUpdateLoop_none_of_mem (c : Int) :
    ∀ (l : List (Int × DposCBInfo)) (acc : Int), c ∈ cbKeys l →
      cbUpdateLoop c acc l = none := by
  intro l
  induction l with
  | nil => intro acc h; simp at h
  | cons kv rest ih =>
    intro acc h
    simp only [cbUpdateLoop]
    by_cases hk : kv.1 = c
    · rw [if_pos hk]
    · rw [if_neg hk]
      apply ih
      rcases List.mem_cons.mp (by simpa using h) with he | hm
      · exact absurd he.symm hk
      · exact hm

theorem cbUpdateLoop_some_mem (c o : Int) :
    ∀ (l : List (Int × DposCBInfo)) (acc : Int), cbUpdateLoop c acc l = some o →
      o = acc ∨ o ∈ cbKeys l := by
  intro l
  induction l with
  | nil =>
    intro acc h
    simp only [cbUpdateLoop] at h
    exact Or.inl (Option.some.inj h).symm
  | cons kv rest ih =>
    intro acc h
    simp only [cbUpdateLoop] at h
    by_cases hk : kv.1 = c
    · rw [if_pos hk] at h; cases h
    · rw [if_neg hk] at h
      rcases ih _ h with he | hm
      · rw [he]
        by_cases h0 : acc = 0
        · rw [if_pos h0]; right; simp
        · rw [if_neg h0]
          by_cases hlt : kv.1 < acc
          · rw [if_pos hlt]; right; simp
          · rw [if_neg hlt]; left; rfl
      · right
        rw [cbKeys_cons]
        exact List.mem_cons_of_mem _ hm

theorem cbUpdateLoop_some_of_not_mem (c : Int) :
    ∀ (l : List (Int × DposCBInfo)) (acc : Int), c ∉ cbKeys l →
      ∃ o, cbUpdateLoop c acc l = some o := by
  intro l
  induction l with
  | nil => intro acc _; exact ⟨acc, rfl⟩
  | cons kv rest ih =>
    intro acc h
    have hk : kv.1 ≠ c := by
      intro he
      exact h (by rw [cbKeys_cons, ← he]; exact List.mem_cons_self _ _)
    simp only [cbUpdateLoop]
    rw [if_neg hk]
    exact ih _ (fun hm => h (by rw [cbKeys_cons]; exact List.mem_cons_of_mem _ hm))

theorem cbUpdateLoop_min (c : Int) :
    ∀ (l : List (Int × DposCBInfo)) (acc : Int), acc ≠ 0 → c ∉ cbKeys l →
      (∀ k ∈ cbKeys l, k ≠ 0) →
      ∃ o, cbUpdateLoop c acc l = some o ∧ (o = acc ∨ o ∈ cbKeys l) ∧ o ≤ acc ∧
        ∀ k ∈ cbKeys l, o ≤ k := by
  intro l
  induction l with
  | nil =>
    intro acc hacc _ _
    exact ⟨acc, rfl, Or.inl rfl, le_refl _, by simp⟩
  | cons kv rest ih =>
    intro acc hacc hnc h0
    have hk : kv.1 ≠ c := by
      intro he
      exact hnc (by rw [cbKeys_cons, ← he]; exact List.mem_cons_self _ _)
    have hk0 : kv.1 ≠ 0 := h0 kv.1 (by rw [cbKeys_cons]; exact List.mem_cons_self _ _)
    have hnc' : c ∉ cbKeys rest :=
      fun hm => hnc (by rw [cbKeys_cons]; exact List.mem_cons_of_mem _ hm)
    have h0' : ∀ k ∈ cbKeys rest, k ≠ 0 :=
      fun k hk2 => h0 k (by rw [cbKeys_cons]; exact List.mem_cons_of_mem _ hk2)
    simp only [cbUpdateLoop]
    rw [if_neg hk, if_neg hacc]
    by_cases hlt : kv.1 < acc
    · rw [if_pos hlt]
      obtain ⟨o, ho, hom, hole, hall⟩ := ih kv.1 hk0 hnc' h0'
      refine ⟨o, ho, ?_, le_trans hole (le_of_lt hlt), ?_⟩
      · rcases hom with he | hm
        · right; rw [cbKeys_cons, he]; exact List.mem_cons_self _ _
        · right; rw [cbKeys_cons]; exact List.mem_cons_of_mem _ hm
      · intro k hkmem
        rcases List.mem_cons.mp (by simpa using hkmem) with he | hm
        · rw [he]; exact hole
        · exact hall k hm
    · rw [if_neg hlt]
      obtain ⟨o, ho, hom, hole, hall⟩ := ih acc hacc hnc' h0'
      refine ⟨o, ho, ?_, hole, ?_⟩
      · rcases hom with he | hm
        · left; exact he
        · right; rw [cbKeys_cons]; exact List.mem_cons_of_mem _ hm
      · intro k hkmem
        rcases List.mem_cons.mp (by simpa using hkmem) with he | hm
        · rw [he]; exact le_trans hole (le_of_not_lt hlt)
        · exact hall k hm

theorem cbUpdateLoop_top_mem (m : List (Int × DposCBInfo)) (c o : Int)
    (hne : m ≠ []) (h : cbUpdateLoop c 0 m = some o) : o ∈ cbKeys m := by
  obtain ⟨kv, rest, rfl⟩ := List.exists_cons_of_ne_nil hne
  simp only [cbUpdateLoop] at h
  by_cases hk : kv.1 = c
  · rw [if_pos hk] at h; cases h
  · rw [if_neg hk, if_pos trivial] at h
    rcases cbUpdateLoop_some_mem c o rest kv.1 h with he | hm
    · rw [cbKeys_cons, he]; exact List.mem_cons_self _ _
    · rw [cbKeys_cons]; exact List.mem_cons_of_mem _ hm

theorem cbUpdateLoop_top_min (m : List (Int × DposCBInfo)) (c : Int)
    (hne : m ≠ []) (hnc : c ∉ cbKeys m) (h0 : ∀ k ∈ cbKeys m, k ≠ 0) :
    ∃ o, cbUpdateLoop c 0 m = some o ∧ o ∈ cbKeys m ∧ ∀ k ∈ cbKeys m, o ≤ k := by
  obtain ⟨kv, rest, rfl⟩ := List.exists_cons_of_ne_nil hne
  have hk : kv.1 ≠ c := by
    intro he
    exact hnc (by rw [cbKeys_cons, ← he]; exact List.mem_cons_self _ _)
  have hk0 : kv.1 ≠ 0 := h0 kv.1 (by rw [cbKeys_cons]; exact List.mem_cons_self _ _)
  have hnc' : c ∉ cbKeys rest :=
    fun hm => hnc (by rw [cbKeys_cons]; exact List.mem_cons_of_mem _ hm)
  have h0' : ∀ k ∈ cbKeys rest, k ≠ 0 :=
    fun k hk2 => h0 k (by rw [cbKeys_cons]; exact List.mem_cons_of_mem _ hk2)
  obtain ⟨o, ho, hom, hole, hall⟩ := cbUpdateLoop_min c rest kv.1 hk0 hnc' h0'
  refine ⟨o, ?_, ?_, ?_⟩
  · simp only [cbUpdateLoop]
    rw [if_neg hk, if_pos trivial]
    exact ho
  · rcases hom with he | hm
    · rw [cbKeys_cons, he]; exact List.mem_cons_self _ _
    · rw [cbKeys_cons]; exact List.mem_cons_of_mem _ hm
  · intro k hkmem
    rcases List.mem_cons.mp (by simpa using hkmem) with he | hm
    · rw [he]; exact hole
    · exact hall k hm

theorem cbKeys_assocSet (m : List (Int × DposCBInfo)) (c : Int) (i : DposCBInfo) :
    cbKeys (assocSet m c i) = cbKeys m := by
  induction m with
  | nil => rfl
  | cons kv rest ih =>
    by_cases h : kv.1 = c
    · rw [assocSet_cons, if_pos h, cbKeys_cons, cbKeys_cons, ih, ← h]
    · rw [assocSet_cons, if_neg h, cbKeys_cons, cbKeys_cons, ih]

theorem length_assocSet (m : List (Int × DposCBInfo)) (c : Int) (i : DposCBInfo) :
    (assocSet m c i).length = m.length := List.length_map _ _

theorem cbLookup_assocSet_self (m : List (Int × DposCBInfo)) (c : Int) (i : DposCBInfo)
    (hmem : c ∈ cbKeys m) : cbLookup (assocSet m c i) c = some i := by
  induction m with
  | nil => simp at hmem
  | cons kv rest ih =>
    by_cases h : kv.1 = c
    · rw [assocSet_cons, if_pos h, cbLookup_cons, if_pos rfl]
    · rw [assocSet_cons, if_neg h, cbLookup_cons, if_neg h]
      apply ih
      rcases List.mem_cons.mp (by simpa using hmem) with he | hm
      · exact absurd he.symm h
      · exact hm

theorem cbLookup_assocSet_other (m : List (Int × DposCBInfo)) (c : Int) (i : DposCBInfo)
    (c' : Int) (hne : c' ≠ c) : cbLookup (assocSet m c i) c' = cbLookup m c' := by
  induction m with
  | nil => rfl
  | cons kv rest ih =>
    by_cases h : kv.1 = c
    · rw [assocSet_cons, if_pos h, cbLookup_cons, cbLookup_cons, ih]
      have h1 : ¬((c, i).1 = c') := fun he => hne (Eq.symm (by simpa using he))
      have h2 : ¬(kv.1 = c') := by rw [h]; exact fun he => hne he.symm
      rw [if_neg h1, if_neg h2]
    · rw [assocSet_cons, if_neg h, cbLookup_cons, cbLookup_cons, ih]

theorem cbLookup_assocErase_self (m : List (Int × DposCBInfo)) (k : Int) :
    cbLookup (assocErase m k) k = none := by
  induction m with
  | nil => rfl
  | cons kv rest ih =>
    rw [assocErase_cons]
    by_cases h : kv.1 = k
    · rw [if_pos h]; exact ih
    · rw [if_neg h, cbLookup_cons, if_neg h]; exact ih

theorem cbLookup_assocErase_other (m : List (Int × DposCBInfo)) (k c : Int)
    (hne : c ≠ k) : cbLookup (assocErase m k) c = cbLookup m c := by
  induction m with
  | nil => rfl
  | cons kv rest ih =>
    rw [assocErase_cons]
    by_cases h : kv.1 = k
    · rw [if_pos h, cbLookup_cons, if_neg (by rw [h]; exact fun he => hne he.symm), ih]
    · rw [if_neg h, cbLookup_cons, cbLookup_cons, ih]

theorem length_assocErase (m : List (Int × DposCBInfo)) (k : Int)
    (hnd : (cbKeys m).Nodup) (hmem : k ∈ cbKeys m) :
    (assocErase m k).length + 1 = m.length := by
  induction m with
  | nil => simp at hmem
  | cons kv rest ih =>
    rw [cbKeys_cons] at hnd hmem
    obtain ⟨hh, ht⟩ := List.nodup_cons.mp hnd
    rw [assocErase_cons]
    by_cases h : kv.1 = k
    · rw [if_pos h]
      have hall : assocErase rest k = rest := by
        apply List.filter_eq_self.mpr
        intro kv' hkv'
        simp only [decide_eq_true_eq]
        intro he
        exact hh (by rw [h, ← he]; exact List.mem_map_of_mem _ hkv')
      rw [hall, List.length_cons]
    · rw [if_neg h, List.length_cons, List.length_cons]
      rcases List.mem_cons.mp hmem with he | hm
      · exact absurd he.symm h
      · rw [ih ht hm]

/-- C5 (amended): UpdateCBInfo inserts into an empty cache, overwrites in
place when the cycle is already a key (evicting nothing), inserts when the
cache holds fewer than 5 entries, and otherwise evicts one key and inserts —
and the evicted key is the numerically smallest one provided no stored cycle
key equals 0 (the min-scan treats 0 as an unset sentinel, so a stored key 0
can be skipped; see the counterexample).  The 5-entry cap holds regardless. -/
theorem updateCBInfo_spec (m : List (Int × DposCBInfo)) (info : DposCBInfo) :
    (m = [] → UpdateCBInfo m info = [(info.cycle, info)]) ∧
    (info.cycle ∈ cbKeys m →
      cbKeys (UpdateCBInfo m info) = cbKeys m ∧
      cbLookup (UpdateCBInfo m info) info.cycle = some info ∧
      (∀ c, c ≠ info.cycle → cbLookup (UpdateCBInfo m info) c = cbLookup m c) ∧
      (UpdateCBInfo m info).length = m.length) ∧
    (m ≠ [] → info.cycle ∉ cbKeys m → m.length < 5 →
      UpdateCBInfo m info = m ++ [(info.cycle, info)]) ∧
    (m ≠ [] → info.cycle ∉ cbKeys m → 5 ≤ m.length → (∀ k ∈ cbKeys m, k ≠ 0) →
      ∃ kmin, kmin ∈ cbKeys m ∧ (∀ k ∈ cbKeys m, kmin ≤ k) ∧
        UpdateCBInfo m info = assocErase m kmin ++ [(info.cycle, info)]) ∧
    ((cbKeys m).Nodup → m.length ≤ 5 → (UpdateCBInfo m info).length ≤ 5) := by
  refine ⟨?_, ?_, ?_, ?_, ?_⟩
  · intro h; subst h; rfl
  · intro hmem
    have hne : m ≠ [] := by
      intro h; subst h; simp at hmem
    have hz : ¬(m.length = 0) := fun h => hne (List.length_eq_zero.mp h)
    have heq : UpdateCBInfo m info = assocSet m info.cycle info := by
      unfold UpdateCBInfo
      rw [if_neg hz, cbUpdateLoop_none_of_mem info.cycle m 0 hmem]
    refine ⟨?_, ?_, ?_, ?_⟩
    · rw [heq]; exact cbKeys_assocSet m info.cycle info
    · rw [heq]; exact cbLookup_assocSet_self m info.cycle info hmem
    · intro c hc
      rw [heq]; exact cbLookup_assocSet_other m info.cycle info c hc
    · rw [heq]; exact length_assocSet m info.cycle info
  · intro hne hnmem hlt
    have hz : ¬(m.length = 0) := fun h => hne (List.length_eq_zero.mp h)
    obtain ⟨o, ho⟩ := cbUpdateLoop_some_of_not_mem info.cycle m 0 hnmem
    unfold UpdateCBInfo
    rw [if_neg hz, ho]
    show (if 5 ≤ m.length then assocErase m o else m) ++ [(info.cycle, info)] =
      m ++ [(info.cycle, info)]
    rw [if_neg (not_le.mpr hlt)]
  · intro hne hnmem hge h0
    have hz : ¬(m.length = 0) := fun h => hne (List.length_eq_zero.mp h)
    obtain ⟨o, ho, homem, homin⟩ := cbUpdateLoop_top_min m info.cycle hne hnmem h0
    refine ⟨o, homem, homin, ?_⟩
    unfold UpdateCBInfo
    rw [if_neg hz, ho]
    show (if 5 ≤ m.length then assocErase m o else m) ++ [(info.cycle, info)] =
      assocErase m o ++ [(info.cycle, info)]
    rw [if_pos hge]
  · intro hnd hle
    unfold UpdateCBInfo
    by_cases hz : m.length = 0
    · rw [if_pos hz]; simp
    · rw [if_neg hz]
      have hne : m ≠ [] := fun h => hz (by rw [h]; rfl)
      cases hloop : cbUpdateLoop info.cycle 0 m with
      | none =>
        show (assocSet m info.cycle info).length ≤ 5
        rw [length_assocSet]
        exact hle
      | some o =>
        show ((if 5 ≤ m.length then assocErase m o else m) ++ [(info.cycle, info)]).length ≤ 5
        by_cases h5 : 5 ≤ m.length
        · rw [if_pos h5, List.length_append]
          have homem : o ∈ cbKeys m := cbUpdateLoop_top_mem m info.cycle o hne hloop
          have hlen := length_assocErase m o hnd homem
          simp only [List.length_cons, List.length_nil]
          omega
        · rw [if_neg h5, List.length_append]
          simp only [List.length_cons, List.length_nil]
          omega

/-- C5 counterexample: a full cache whose numerically smallest cycle key is
0 — updating with cycle 8 keeps the entry for cycle 0 and evicts the entry
for cycle 4 instead, refuting the claim that the entry with the smallest
cycle key is evicted. -/
theorem updateCBInfo_spec_cex :
    ((0 : Int) ∈ cbKeys cbMapZero ∧ ∀ k ∈ cbKeys cbMapZero, (0 : Int) ≤ k) ∧
    cbLookup (UpdateCBInfo cbMapZero (cbi 8)) 0 = some (cbi 0) ∧
    cbLookup (UpdateCBInfo cbMapZero (cbi 8)) 4 = none :=
  ⟨⟨by decide, by decide⟩, by decide, by decide⟩

/-- C5 witness: on the cache holding cycles 3..7, updating with cycle 8
evicts cycle 3, and updating with cycle 5 overwrites in place without
eviction. -/
theorem updateCBInfo_spec_witness :
    cbLookup (UpdateCBInfo cbMapFull (cbi 8)) 3 = none ∧
    cbLookup (UpdateCBInfo cbMapFull (cbi 8)) 8 = some (cbi 8) ∧
    cbKeys (UpdateCBInfo cbMapFull (cbi 5)) = cbKeys cbMapFull ∧
    cbLookup (UpdateCBInfo cbMapFull (cbi 5)) 5 = some (cbi 5) := by
  obtain ⟨kmin, hmem, hmin, heq⟩ :=
    (updateCBInfo_spec cbMapFull (cbi 8)).2.2.2.1 (by decide) (by decide) (by decide) (by decide)
  have hk3 : kmin = 3 :=
    le_antisymm (hmin 3 (by decide)) ((by decide : ∀ k ∈ cbKeys cbMapFull, (3 : Int) ≤ k) kmin hmem)
  rw [hk3] at heq
  refine ⟨?_, ?_, ((updateCBInfo_spec cbMapFull (cbi 5)).2.1 (by decide)).1,
    ((updateCBInfo_spec cbMapFull (cbi 5)).2.1 (by decide)).2.1⟩
  · rw [heq]; decide
  · rw [heq]; decide

/-- C6: VerifyCBInfo returns true precisely when the hex-decoded in-band
pubkey and signature deserialize and the signature verifies under that
public key over the canonical deterministic serialization of (cycle,
stop_height, stop_hash, pubkey); the result does not depend on any other
consensus state — in particular no validator-set membership is consulted. -/
theorem verifyCBInfo_spec (cs : ConsensusState) (C : CryptoScheme) (info : DposCBInfo) :
    (VerifyCBInfo cs C info = true ↔
      ∃ bpk pk bsig sig, hexDecode info.pubkey = some bpk ∧
        C.pubKeyFromBytes bpk = some pk ∧ hexDecode info.signature = some bsig ∧
        C.signatureFromBytes bsig = some sig ∧
        C.verifyBytes pk (cbCanonicalBytes info) sig = true) ∧
    (∀ cs', VerifyCBInfo cs' C info = VerifyCBInfo cs C info) := by
  refine ⟨⟨?_, ?_⟩, fun cs' => rfl⟩
  · intro h
    unfold VerifyCBInfo at h
    cases h1 : hexDecode info.pubkey with
    | none =>
      simp only [h1] at h
      exact Bool.noConfusion h
    | some bpk =>
      simp only [h1] at h
      cases h2 : C.pubKeyFromBytes bpk with
      | none =>
        simp only [h2] at h
        exact Bool.noConfusion h
      | some pk =>
        simp only [h2] at h
        cases h3 : hexDecode info.signature with
        | none =>
          simp only [h3] at h
          exact Bool.noConfusion h
        | some bsig =>
          simp only [h3] at h
          cases h4 : C.signatureFromBytes bsig with
          | none =>
            simp only [h4] at h
            exact Bool.noConfusion h
          | some sig =>
            simp only [h4] at h
            exact ⟨bpk, pk, bsig, sig, rfl, h2, rfl, h4, h⟩
  · rintro ⟨bpk, pk, bsig, sig, h1, h2, h3, h4, h5⟩
    unfold VerifyCBInfo
    simp only [h1, h2, h3, h4]
    exact h5

/-- C6 witness: under the concrete scheme, the signature built under the
in-band public key over the canonical payload of (7, 1000, "H", "ab")
verifies, and the same record with the stop hash flipped to "I" does not. -/
theorem verifyCBInfo_spec_witness :
    VerifyCBInfo initialConsensusState toyScheme goodInfo = true ∧
    VerifyCBInfo initialConsensusState toyScheme badInfo = false := by
  constructor
  · exact (verifyCBInfo_spec initialConsensusState toyScheme goodInfo).1.mpr
      ⟨[171], [171], cbCanonicalBytes goodInfoBase ++ [171],
        cbCanonicalBytes goodInfoBase ++ [171], by decide, rfl, by decide, rfl, by decide⟩
  · decide

end Dpos
